import Mathlib

/-!
Verification of the DocParser chunk classifier and normalizer.

This file is a shallow embedding of the content-chunk pipeline of the
DocParser repository: the HTML content classifier (`src/html_parser.py`),
the table-merge normalizer, the empty-content filtering, the token counter
and the database-record converter (`src/chunker.py`).  Python dictionaries
holding chunk data are embedded as a structure whose optional fields model
keys whose value may be absent or `None`; reading a dict key through
`.get(key, default)` corresponds to reading the field (every chunk written
by `ContentChunk.to_dict` carries all eight keys, so the defaults for
`content`, `tag_name`, `attributes` and `position` never fire and those
fields are embedded without an `Option`).  Python's `str.strip` is embedded
as `pyStrip`, and `sep.join` as `joinSep`.
-/

namespace DocParser

/-- Characters treated as whitespace by Python's `str.strip` / `str.split`
(ASCII fragment; the embedding models ASCII text). -/
def isSpaceChar (c : Char) : Bool :=
  c == ' ' || c == '\t' || c == '\n' || c == '\r' || c == '\x0b' || c == '\x0c'

/-- Strip leading and trailing whitespace from a character list. -/
def stripChars (l : List Char) : List Char :=
  ((l.dropWhile isSpaceChar).reverse.dropWhile isSpaceChar).reverse

/-- Embedding of Python's `str.strip()`. -/
def pyStrip (s : String) : String := String.mk (stripChars s.data)

/-- Embedding of Python's `sep.join(parts)`. -/
def joinSep (sep : String) : List String → String
  | [] => ""
  | [s] => s
  | s :: t :: rest => s ++ sep ++ joinSep sep (t :: rest)

/-- Values stored in a chunk's `table_info` dictionary: the parser writes
integers (`rows`, `columns`) and a boolean (`has_header`); the merge step
writes an integer (`merged_chunks`) and a list of integers
(`original_positions`). -/
inductive TIVal where
  | nat (n : Nat)
  | natList (l : List Nat)
  | bool (b : Bool)
deriving DecidableEq, Repr

/-- A `table_info` dictionary, embedded as an association list. -/
abbrev TableInfoDict := List (String × TIVal)

/-- A chunk dictionary as consumed by `chunker.py` (the JSON-serialized form
produced by `ContentChunk.to_dict`): keys `content_type`, `content`,
`tag_name`, `attributes`, `level`, `list_type`, `table_info`, `position`.
The last four may be `None`/absent; `level`, `list_type` and `table_info`
are embedded as `Option` fields (`none` = absent or `None`).  `position` is
always written by the parser, so it is embedded as a plain `Nat`. -/
structure Chunk where
  content_type : String
  content : String
  tag_name : String
  attributes : List (String × String)
  level : Option Nat
  list_type : Option String
  table_info : Option TableInfoDict
  position : Nat
deriving DecidableEq, Repr

/-- The test `chunk.get('content_type', '') == 'table'`. -/
def isTable (c : Chunk) : Bool := c.content_type == "table"

/-- The merged chunk built by `merge_consecutive_table_chunks` for a run
`first :: rest` of consecutive table chunks (`src/src/chunker.py`,
lines 398-413): content is the `' | '`-join of the stripped contents with
empty strings dropped, `tag_name`/`attributes`/`position` come from the
first chunk of the run, and `table_info` holds exactly the keys
`merged_chunks` and `original_positions`. -/
def mergeRun (first : Chunk) (rest : List Chunk) : Chunk :=
  { content_type := "table"
    content := joinSep " | "
      (((first :: rest).map (fun c => pyStrip c.content)).filter (fun s => !(s == "")))
    tag_name := first.tag_name
    attributes := first.attributes
    level := none
    list_type := none
    table_info := some
      [("merged_chunks", TIVal.nat (first :: rest).length),
       ("original_positions", TIVal.natList ((first :: rest).map Chunk.position))]
    position := first.position }

/-- Fuel-indexed body of the `while i < len(chunks)` loop of
`merge_consecutive_table_chunks`.  On a table chunk the loop looks ahead
over the consecutive table chunks (`takeWhile`), emits either the merged
chunk (when the run has length at least two) or the single chunk unchanged,
and resumes after the run (`dropWhile`); any other chunk is emitted
unchanged.  The fuel only forces termination: with `fuel ≥ length` (as used
in `mergeConsecutiveTableChunks`) the `0` case is unreachable. -/
def mergeGo : Nat → List Chunk → List Chunk
  | _, [] => []
  | 0, l => l
  | fuel + 1, c :: cs =>
    if isTable c then
      (if (cs.takeWhile isTable).length + 1 > 1
        then [mergeRun c (cs.takeWhile isTable)]
        else [c]) ++ mergeGo fuel (cs.dropWhile isTable)
    else c :: mergeGo fuel cs

/-- Embedding of `merge_consecutive_table_chunks` (`src/src/chunker.py`,
lines 362-428). -/
def mergeConsecutiveTableChunks (chunks : List Chunk) : List Chunk :=
  mergeGo chunks.length chunks

/-- The per-chunk keep test of `filter_empty_content` (`src/src/chunker.py`,
lines 431-454), with the source's nesting kept: the divider/image test only
runs when the stripped content is already non-empty. -/
def keepChunk (c : Chunk) : Bool :=
  let content := pyStrip c.content
  if !(content == "") then
    c.content_type == "divider" || c.content_type == "image" || content.length > 0
  else
    false

/-- Embedding of `filter_empty_content`. -/
def filter_empty_content (chunks : List Chunk) : List Chunk :=
  chunks.filter keepChunk

/-- Word characters of the regex class `\w` (ASCII fragment). -/
def isWordChar (c : Char) : Bool := c.isAlphanum || c == '_'

/-- Split a character list at the first `'>'`, returning the characters
before it and the characters after it. -/
def splitAtGt : List Char → Option (List Char × List Char)
  | [] => none
  | c :: rest =>
    if c == '>' then some ([], rest)
    else
      match splitAtGt rest with
      | some (inside, after) => some (c :: inside, after)
      | none => none

/-- Fuel-indexed scanner for `re.sub(r'<[^>]+>', '', text)`: at a `'<'`
followed by at least one non-`'>'` character and then a `'>'`, the whole
span through the `'>'` is removed; a `"<>"` pair and an unclosed `'<'` are
kept (the regex does not match them).  The fuel only forces termination and
is never exhausted when it starts at the list length. -/
def stripTagsGo : Nat → List Char → List Char
  | _, [] => []
  | 0, l => l
  | fuel + 1, c :: rest =>
    if c == '<' then
      match splitAtGt rest with
      | some ([], _) => c :: stripTagsGo fuel rest
      | some (_ :: _, after) => stripTagsGo fuel after
      | none => c :: stripTagsGo fuel rest
    else c :: stripTagsGo fuel rest

/-- Embedding of the HTML-tag removal step of `count_tokens`. -/
def stripTags (l : List Char) : List Char := stripTagsGo l.length l

/-- Embedding of `re.sub(r'[^\w\s]', ' ', text)`: every character that is
neither a word character nor whitespace becomes a space. -/
def replacePunct (l : List Char) : List Char :=
  l.map (fun c => if !(isWordChar c) && !(isSpaceChar c) then ' ' else c)

/-- Count the maximal whitespace-free runs of a character list: the length
of Python's `text.split()` (whose members are non-empty by construction, so
the source's trailing `if token.strip()` filter never removes anything).
The flag records whether the scanner is inside a run. -/
def countRuns : Bool → List Char → Nat
  | _, [] => 0
  | inWord, c :: rest =>
    if isSpaceChar c then countRuns false rest
    else (if inWord then 0 else 1) + countRuns true rest

/-- Embedding of `count_tokens` (`src/src/chunker.py`, lines 19-41): the
guard `if not text or not text.strip(): return 0` is the test that every
character is whitespace (an empty string passes it trivially). -/
def count_tokens (text : String) : Nat :=
  if text.data.all isSpaceChar then 0
  else countRuns false (replacePunct (stripTags text.data))

/-- Token counting as the specification words it: remove HTML tags, replace
punctuation with spaces, split on whitespace and count the non-empty
tokens — with no special case for empty input. -/
def countTokensSpec (text : String) : Nat :=
  countRuns false (replacePunct (stripTags text.data))

/-- The `type_mapping` dictionary of `convert_chunk_to_database_format`
with its `.get(content_type, 'unknown')` default. -/
def typeMapping (t : String) : String :=
  if t == "heading" then "header"
  else if t == "paragraph" then "paragraph"
  else if t == "list" then "list"
  else if t == "table" then "table"
  else if t == "image" then "image"
  else if t == "code_block" then "code"
  else if t == "quote" then "quote"
  else if t == "form" then "form"
  else if t == "navigation" then "navigation"
  else if t == "footer" then "footer"
  else if t == "divider" then "divider"
  else if t == "unknown" then "unknown"
  else "unknown"

/-- The flattened, primitive-only metadata of a database record
(`convert_chunk_to_database_format`): `level`, `list_type` and
`merged_chunks` are present only under the conditions checked by the
source (note Python truthiness: a zero level, an empty `list_type` string
or an empty `table_info` dictionary count as absent). -/
structure DBMetadata where
  name : String
  type : String
  html_class : String
  token_count : Nat
  tag_name : String
  position : Nat
  level : Option Nat
  list_type : Option String
  merged_chunks : Option TIVal
deriving DecidableEq, Repr

/-- A database-ready record (`{'id': ..., 'content': ..., 'metadata': ...}`). -/
structure DBRecord where
  id : Nat
  content : String
  metadata : DBMetadata
deriving DecidableEq, Repr

/-- Embedding of `convert_chunk_to_database_format` (`src/src/chunker.py`,
lines 282-359); `paperTitle` stands for `paper_metadata['title']`, the only
part of the paper metadata the record keeps. -/
def convert_chunk_to_database_format (chunk : Chunk) (paperTitle : String)
    (chunk_id : Nat) : DBRecord :=
  let content := pyStrip chunk.content
  let chunk_type := typeMapping chunk.content_type
  let html_class :=
    match chunk.attributes.lookup "class" with
    | some s => if s == "" then "" else s
    | none => ""
  { id := chunk_id
    content := content
    metadata :=
    { name := paperTitle
      type := chunk_type
      html_class := html_class
      token_count := count_tokens content
      tag_name := chunk.tag_name
      position := chunk.position
      level :=
        if chunk.content_type == "heading" then
          match chunk.level with
          | some l => if l == 0 then none else some l
          | none => none
        else none
      list_type :=
        if chunk.content_type == "list" then
          match chunk.list_type with
          | some s => if s == "" then none else some s
          | none => none
        else none
      merged_chunks :=
        if chunk.content_type == "table" then
          match chunk.table_info with
          | some ti => if ti.isEmpty then none else ti.lookup "merged_chunks"
          | none => none
        else none } }

/-- The id-assigning conversion loop of `convert_json_to_database_format`
(`src/src/chunker.py`, lines 533-547): `chunk_id` starts at 1 and advances
only when a record is produced. -/
def convertChunksLoop : List Chunk → String → Nat → List DBRecord
  | [], _, _ => []
  | c :: cs, title, chunk_id =>
    convert_chunk_to_database_format c title chunk_id
      :: convertChunksLoop cs title (chunk_id + 1)

/-- The record list built by `convert_json_to_database_format` from an
already filtered and merged chunk sequence. -/
def convert_chunks (chunks : List Chunk) (title : String) : List DBRecord :=
  convertChunksLoop chunks title 1

/-- The full normalization part of `convert_json_to_database_format` with
the default flags (`include_empty = False`, `merge_tables = True`):
filtering, then table merging, then record conversion. -/
def convertPipeline (chunks : List Chunk) (title : String) : List DBRecord :=
  convert_chunks (mergeConsecutiveTableChunks (filter_empty_content chunks)) title

/-- Decidable form of "the sequence does not start with a table chunk". -/
def headNotTable : List Chunk → Bool
  | [] => true
  | d :: _ => !(isTable d)

/-- Decidable form of "every chunk of the sequence is a table chunk". -/
def allTables (l : List Chunk) : Bool := l.all isTable

/-- Unfolding equation for `mergeGo` on the empty list, any fuel. -/
theorem mergeGo_nil (f : Nat) : mergeGo f [] = [] := by
  cases f <;> rfl

/-- The loop body never depends on the fuel as long as the fuel dominates
the list length. -/
theorem mergeGo_congr : ∀ (f g : Nat) (l : List Chunk),
    l.length ≤ f → l.length ≤ g → mergeGo f l = mergeGo g l := by
  intro f
  induction f with
  | zero =>
    intro g l hf _
    have hl : l = [] := List.length_eq_zero.mp (Nat.le_zero.mp hf)
    subst hl
    rw [mergeGo_nil, mergeGo_nil]
  | succ f ih =>
    intro g l hf hg
    match l, g with
    | [], _ => rw [mergeGo_nil, mergeGo_nil]
    | c :: cs, 0 => simp at hg
    | c :: cs, g + 1 =>
      simp only [mergeGo]
      cases hc : isTable c with
      | true =>
        have hdrop : (cs.dropWhile isTable).length ≤ cs.length :=
          (List.dropWhile_sublist isTable (l := cs)).length_le
        rw [if_pos (show (true = true) from rfl), if_pos (show (true = true) from rfl),
          ih g (cs.dropWhile isTable)
          (le_trans hdrop (Nat.le_of_succ_le_succ hf))
          (le_trans hdrop (Nat.le_of_succ_le_succ hg))]
      | false =>
        have hne : ¬(false = true) := by simp
        rw [if_neg hne, if_neg hne, ih g cs (Nat.le_of_succ_le_succ hf) (Nat.le_of_succ_le_succ hg)]

/-- Unfolding equation: the empty sequence. -/
theorem merge_nil : mergeConsecutiveTableChunks [] = [] := rfl

/-- Unfolding equation: a leading non-table chunk passes through
unchanged. -/
theorem merge_cons_not_table (c : Chunk) (cs : List Chunk)
    (h : isTable c = false) :
    mergeConsecutiveTableChunks (c :: cs) = c :: mergeConsecutiveTableChunks cs := by
  show mergeGo (cs.length + 1) (c :: cs) = _
  have h' : ¬(isTable c = true) := by simp [h]
  simp only [mergeGo, if_neg h']
  rfl

/-- Unfolding equation: a leading table chunk opens a look-ahead over the
consecutive table chunks. -/
theorem merge_cons_table (c : Chunk) (cs : List Chunk)
    (h : isTable c = true) :
    mergeConsecutiveTableChunks (c :: cs) =
      (if (cs.takeWhile isTable).length + 1 > 1
        then [mergeRun c (cs.takeWhile isTable)]
        else [c]) ++ mergeConsecutiveTableChunks (cs.dropWhile isTable) := by
  show mergeGo (cs.length + 1) (c :: cs) = _
  simp only [mergeGo, if_pos h]
  have hdrop : (cs.dropWhile isTable).length ≤ cs.length :=
    (List.dropWhile_sublist isTable (l := cs)).length_le
  rw [mergeGo_congr cs.length (cs.dropWhile isTable).length (cs.dropWhile isTable)
    hdrop (le_refl _)]
  rfl

/-- On `run ++ rest` where every chunk of `run` satisfies the predicate and
`rest` does not start with one, `takeWhile` returns exactly `run`. -/
theorem takeWhile_run_append (p : Chunk → Bool) :
    ∀ (run rest : List Chunk), (∀ x ∈ run, p x = true) →
    (∀ d ∈ rest.take 1, p d = false) →
    (run ++ rest).takeWhile p = run := by
  intro run
  induction run with
  | nil =>
    intro rest _ hrest
    cases rest with
    | nil => rfl
    | cons d ds =>
      have hd : p d = false := hrest d (by simp)
      simp [List.takeWhile, hd]
  | cons a run ih =>
    intro rest hall hrest
    have ha : p a = true := hall a (by simp)
    simp only [List.cons_append, List.takeWhile, ha, List.append_eq]
    rw [ih rest (fun x hx => hall x (by simp [hx])) hrest]

/-- Companion of `takeWhile_run_append` for `dropWhile`. -/
theorem dropWhile_run_append (p : Chunk → Bool) :
    ∀ (run rest : List Chunk), (∀ x ∈ run, p x = true) →
    (∀ d ∈ rest.take 1, p d = false) →
    (run ++ rest).dropWhile p = rest := by
  intro run
  induction run with
  | nil =>
    intro rest _ hrest
    cases rest with
    | nil => rfl
    | cons d ds =>
      have hd : p d = false := hrest d (by simp)
      simp [List.dropWhile, hd]
  | cons a run ih =>
    intro rest hall hrest
    have ha : p a = true := hall a (by simp)
    simp only [List.cons_append, List.dropWhile, ha, List.append_eq]
    rw [ih rest (fun x hx => hall x (by simp [hx])) hrest]

/-- Pointwise reading of `allTables`. -/
theorem allTables_mem {l : List Chunk} (h : allTables l = true) :
    ∀ x ∈ l, isTable x = true := by
  intro x hx
  exact List.all_eq_true.mp h x hx

/-- Pointwise reading of `headNotTable`. -/
theorem headNotTable_take {l : List Chunk} (h : headNotTable l = true) :
    ∀ d ∈ l.take 1, isTable d = false := by
  intro d hd
  cases l with
  | nil => simp at hd
  | cons a l =>
    simp only [List.take, List.mem_singleton] at hd
    subst hd
    simpa [headNotTable] using h

/-- Core run lemma: a maximal run of at least two consecutive table chunks
at the head of the sequence collapses to the single merged chunk, and the
loop continues independently on the remainder. -/
theorem merge_run_head (c : Chunk) (run rest : List Chunk)
    (hall : allTables (c :: run) = true)
    (hrest : headNotTable rest = true)
    (hrun : run ≠ []) :
    mergeConsecutiveTableChunks ((c :: run) ++ rest) =
      mergeRun c run :: mergeConsecutiveTableChunks rest := by
  have hc : isTable c = true := allTables_mem hall c (by simp)
  have hrunall : ∀ x ∈ run, isTable x = true := fun x hx =>
    allTables_mem hall x (by simp [hx])
  have htake : (run ++ rest).takeWhile isTable = run :=
    takeWhile_run_append isTable run rest hrunall (headNotTable_take hrest)
  have hdrop : (run ++ rest).dropWhile isTable = rest :=
    dropWhile_run_append isTable run rest hrunall (headNotTable_take hrest)
  have : (c :: run) ++ rest = c :: (run ++ rest) := rfl
  rw [this, merge_cons_table c (run ++ rest) hc, htake, hdrop]
  have hlen : run.length + 1 > 1 := by
    cases run with
    | nil => exact absurd rfl hrun
    | cons a l => simp
  simp [hlen]

/-- Core run lemma: a single isolated table chunk is kept unchanged, and
the loop continues independently on the remainder. -/
theorem merge_single_table (c : Chunk) (rest : List Chunk)
    (hc : isTable c = true)
    (hrest : headNotTable rest = true) :
    mergeConsecutiveTableChunks (c :: rest) =
      c :: mergeConsecutiveTableChunks rest := by
  have htake : rest.takeWhile isTable = [] := by
    have := takeWhile_run_append isTable [] rest (by simp) (headNotTable_take hrest)
    simpa using this
  have hdrop : rest.dropWhile isTable = rest := by
    have := dropWhile_run_append isTable [] rest (by simp) (headNotTable_take hrest)
    simpa using this
  rw [merge_cons_table c rest hc, htake, hdrop]
  simp

/-- Decidable form of "no two consecutive chunks are both table chunks". -/
def noAdjacentTables : List Chunk → Bool
  | [] => true
  | [_] => true
  | a :: b :: rest => (!(isTable a && isTable b)) && noAdjacentTables (b :: rest)

/-- Prepending a non-table chunk preserves `noAdjacentTables`. -/
theorem noAdj_cons_not_table {c : Chunk} {l : List Chunk}
    (hc : isTable c = false) (hl : noAdjacentTables l = true) :
    noAdjacentTables (c :: l) = true := by
  cases l with
  | nil => rfl
  | cons b rest => simp [noAdjacentTables, hc, hl]

/-- Prepending a table chunk to a sequence that does not start with one
preserves `noAdjacentTables`. -/
theorem noAdj_cons_table {c : Chunk} {l : List Chunk}
    (hh : headNotTable l = true) (hl : noAdjacentTables l = true) :
    noAdjacentTables (c :: l) = true := by
  cases l with
  | nil => rfl
  | cons b rest =>
    have hb : isTable b = false := by simpa [headNotTable] using hh
    simp [noAdjacentTables, hb, hl]

/-- The tail of a sequence without adjacent tables has none either. -/
theorem noAdj_tail {a : Chunk} {l : List Chunk}
    (h : noAdjacentTables (a :: l) = true) : noAdjacentTables l = true := by
  cases l with
  | nil => rfl
  | cons b rest =>
    simp only [noAdjacentTables, Bool.and_eq_true] at h
    exact h.2

/-- In a sequence without adjacent tables, the first two chunks are not
both tables. -/
theorem noAdj_pair {a b : Chunk} {rest : List Chunk}
    (h : noAdjacentTables (a :: b :: rest) = true) :
    (isTable a && isTable b) = false := by
  simp only [noAdjacentTables, Bool.and_eq_true, Bool.not_eq_true'] at h
  exact h.1

/-- After `dropWhile isTable`, the remainder never starts with a table. -/
theorem headNotTable_dropWhile : ∀ l : List Chunk,
    headNotTable (l.dropWhile isTable) = true := by
  intro l
  induction l with
  | nil => rfl
  | cons a l ih =>
    cases ha : isTable a with
    | true => simpa [List.dropWhile, ha] using ih
    | false => simp [List.dropWhile, ha, headNotTable]

/-- The merge never introduces a leading table chunk where there was none. -/
theorem merge_headNotTable {l : List Chunk} (h : headNotTable l = true) :
    headNotTable (mergeConsecutiveTableChunks l) = true := by
  cases l with
  | nil => rfl
  | cons c cs =>
    have hc : isTable c = false := by simpa [headNotTable] using h
    rw [merge_cons_not_table c cs hc]
    simpa [headNotTable] using hc

/-- The merge is the identity on sequences without adjacent table chunks
(length-bounded induction). -/
theorem merge_fixed_aux : ∀ (n : Nat) (l : List Chunk), l.length ≤ n →
    noAdjacentTables l = true → mergeConsecutiveTableChunks l = l := by
  intro n
  induction n with
  | zero =>
    intro l hl _
    have : l = [] := List.length_eq_zero.mp (Nat.le_zero.mp hl)
    subst this
    rfl
  | succ n ih =>
    intro l hl hadj
    match l with
    | [] => rfl
    | [c] =>
      cases hc : isTable c with
      | true => rw [merge_single_table c [] hc rfl, merge_nil]
      | false => rw [merge_cons_not_table c [] hc, merge_nil]
    | c :: d :: rest =>
      have htail : noAdjacentTables (d :: rest) = true := noAdj_tail hadj
      have hlen : (d :: rest).length ≤ n := Nat.le_of_succ_le_succ hl
      cases hc : isTable c with
      | true =>
        have hd : isTable d = false := by
          have := noAdj_pair hadj
          simpa [hc] using this
        have hh : headNotTable (d :: rest) = true := by simp [headNotTable, hd]
        rw [merge_single_table c (d :: rest) hc hh, ih (d :: rest) hlen htail]
      | false =>
        rw [merge_cons_not_table c (d :: rest) hc, ih (d :: rest) hlen htail]

/-- The output of the merge never contains two adjacent table chunks
(length-bounded induction). -/
theorem merge_noAdj_aux : ∀ (n : Nat) (l : List Chunk), l.length ≤ n →
    noAdjacentTables (mergeConsecutiveTableChunks l) = true := by
  intro n
  induction n with
  | zero =>
    intro l hl
    have : l = [] := List.length_eq_zero.mp (Nat.le_zero.mp hl)
    subst this
    rfl
  | succ n ih =>
    intro l hl
    match l with
    | [] => rfl
    | c :: cs =>
      cases hc : isTable c with
      | false =>
        rw [merge_cons_not_table c cs hc]
        exact noAdj_cons_not_table hc (ih cs (Nat.le_of_succ_le_succ hl))
      | true =>
        rw [merge_cons_table c cs hc]
        have hdroplen : (cs.dropWhile isTable).length ≤ n :=
          le_trans (List.dropWhile_sublist isTable (l := cs)).length_le
            (Nat.le_of_succ_le_succ hl)
        have hmhead : headNotTable
            (mergeConsecutiveTableChunks (cs.dropWhile isTable)) = true :=
          merge_headNotTable (headNotTable_dropWhile cs)
        have hmadj : noAdjacentTables
            (mergeConsecutiveTableChunks (cs.dropWhile isTable)) = true :=
          ih (cs.dropWhile isTable) hdroplen
        by_cases hlen : (cs.takeWhile isTable).length + 1 > 1
        · rw [if_pos hlen]
          exact noAdj_cons_table hmhead hmadj
        · rw [if_neg hlen]
          exact noAdj_cons_table hmhead hmadj

/-- Reading one key of a chunk's `table_info` dictionary
(`chunk['table_info'][key]`). -/
def tableInfoLookup (c : Chunk) (k : String) : Option TIVal :=
  match c.table_info with
  | some ti => ti.lookup k
  | none => none

/-- Filtering the stripped contents commutes with mapping the strip over
the chunks first. -/
theorem strip_filter_map_comm : ∀ l : List Chunk,
    (l.map (fun x => pyStrip x.content)).filter (fun s => !(s == "")) =
      (l.filter (fun x => !(pyStrip x.content == ""))).map
        (fun x => pyStrip x.content) := by
  intro l
  induction l with
  | nil => rfl
  | cons a l ih =>
    cases h : (pyStrip a.content == "") with
    | true => simp [List.filter_cons, h, ih]
    | false => simp [List.filter_cons, h, ih]

/-- Length of the record list built by the conversion loop. -/
theorem convertLoop_length : ∀ (chunks : List Chunk) (title : String) (i : Nat),
    (convertChunksLoop chunks title i).length = chunks.length := by
  intro chunks
  induction chunks with
  | nil => intro title i; rfl
  | cons c cs ih =>
    intro title i
    simp [convertChunksLoop, ih]

/-- The conversion loop assigns the ids `i, i+1, ...` in output order. -/
theorem convertLoop_ids : ∀ (chunks : List Chunk) (title : String) (i : Nat),
    (convertChunksLoop chunks title i).map DBRecord.id =
      List.range' i chunks.length := by
  intro chunks
  induction chunks with
  | nil => intro title i; rfl
  | cons c cs ih =>
    intro title i
    simp only [convertChunksLoop, List.map_cons, List.length_cons, List.range'_succ]
    rw [ih]
    rfl

/-- Sample chunk: the first table chunk of the specification's merge
scenario (`table(pos=0, "a|b")`). -/
def exTableA : Chunk :=
  { content_type := "table", content := "a|b", tag_name := "table",
    attributes := [], level := none, list_type := none, table_info := none,
    position := 0 }

/-- Sample chunk: the second table chunk of the specification's merge
scenario (`table(pos=1, "c|d")`). -/
def exTableB : Chunk :=
  { content_type := "table", content := "c|d", tag_name := "table",
    attributes := [], level := none, list_type := none, table_info := none,
    position := 1 }

/-- Sample chunk: the paragraph chunk of the specification's merge scenario
(`paragraph(pos=2, "x")`). -/
def exPara : Chunk :=
  { content_type := "paragraph", content := "x", tag_name := "p",
    attributes := [], level := none, list_type := none, table_info := none,
    position := 2 }

/-- The merged chunk the specification's scenario expects:
`table(merged_chunks=2, content="a|b | c|d")`. -/
def exMergedAB : Chunk :=
  { content_type := "table", content := "a|b | c|d", tag_name := "table",
    attributes := [], level := none, list_type := none,
    table_info := some
      [("merged_chunks", TIVal.nat 2), ("original_positions", TIVal.natList [0, 1])],
    position := 0 }

/-- Table chunk whose content carries surrounding whitespace. -/
def cexTableA : Chunk :=
  { content_type := "table", content := " a ", tag_name := "table",
    attributes := [], level := none, list_type := none, table_info := none,
    position := 0 }

/-- Table chunk whose content is the empty string. -/
def cexTableB : Chunk :=
  { content_type := "table", content := "", tag_name := "table",
    attributes := [], level := none, list_type := none, table_info := none,
    position := 1 }

/-- C1 counterexample: for the run `[table(" a "), table("")]` the merged
content is `"a"` — the code strips each content and drops empty strings
before joining — while the `' | '`-join of the run's contents as they stand
is `" a  | "`.  So the merged content is not the `' | '`-joined
concatenation of the run's contents. -/
theorem c1_literal_join_counterexample :
    (mergeConsecutiveTableChunks [cexTableA, cexTableB]).map Chunk.content = ["a"]
  ∧ joinSep " | " [cexTableA.content, cexTableB.content] = " a  | "
  ∧ ¬((mergeConsecutiveTableChunks [cexTableA, cexTableB]).map Chunk.content
      = [joinSep " | " [cexTableA.content, cexTableB.content]]) := by
  decide

/-- C1 (amended): a maximal run of `k ≥ 2` consecutive table chunks
collapses to exactly one chunk with `table_info.merged_chunks = k` whose
content is the `' | '`-join of the run's stripped contents with empty
strings excluded; an isolated table chunk passes through unchanged; a
non-table chunk passes through unchanged; and the specification's concrete
scenario holds. -/
theorem c1_merge_collapses_table_runs :
    (∀ (c : Chunk) (run rest : List Chunk),
      allTables (c :: run) = true → headNotTable rest = true → run ≠ [] →
      mergeConsecutiveTableChunks ((c :: run) ++ rest) =
          mergeRun c run :: mergeConsecutiveTableChunks rest
        ∧ (mergeRun c run).content_type = "table"
        ∧ tableInfoLookup (mergeRun c run) "merged_chunks" =
            some (TIVal.nat (c :: run).length)
        ∧ (mergeRun c run).content =
            joinSep " | " (((c :: run).map (fun x => pyStrip x.content)).filter
              (fun s => !(s == ""))))
  ∧ (∀ (c : Chunk) (rest : List Chunk),
      isTable c = true → headNotTable rest = true →
      mergeConsecutiveTableChunks (c :: rest) = c :: mergeConsecutiveTableChunks rest)
  ∧ (∀ (c : Chunk) (cs : List Chunk),
      isTable c = false →
      mergeConsecutiveTableChunks (c :: cs) = c :: mergeConsecutiveTableChunks cs)
  ∧ mergeConsecutiveTableChunks [exTableA, exTableB, exPara] = [exMergedAB, exPara] := by
  refine ⟨?_, ?_, ?_, ?_⟩
  · intro c run rest hall hrest hrun
    exact ⟨merge_run_head c run rest hall hrest hrun, rfl, rfl, rfl⟩
  · intro c rest hc hrest
    exact merge_single_table c rest hc hrest
  · intro c cs hc
    exact merge_cons_not_table c cs hc
  · decide

/-- Witness for `c1_merge_collapses_table_runs`: the run part instantiated
on the specification's scenario. -/
theorem c1_merge_collapses_table_runs_witness :
    mergeConsecutiveTableChunks ((exTableA :: [exTableB]) ++ [exPara]) =
        mergeRun exTableA [exTableB] :: mergeConsecutiveTableChunks [exPara]
      ∧ (mergeRun exTableA [exTableB]).content_type = "table"
      ∧ tableInfoLookup (mergeRun exTableA [exTableB]) "merged_chunks" =
          some (TIVal.nat (exTableA :: [exTableB]).length)
      ∧ (mergeRun exTableA [exTableB]).content =
          joinSep " | " (((exTableA :: [exTableB]).map (fun x => pyStrip x.content)).filter
            (fun s => !(s == ""))) :=
  c1_merge_collapses_table_runs.1 exTableA [exTableB] [exPara]
    (by decide) (by decide) (by decide)

/-- Chunk with content type `divider` and empty content. -/
def emptyDivider : Chunk :=
  { content_type := "divider", content := "", tag_name := "hr",
    attributes := [], level := none, list_type := none, table_info := none,
    position := 0 }

/-- C2 (code bug): `filter_empty_content` drops a divider chunk whose
content is empty, because the divider/image exception sits inside the
`if content:` test and is therefore dead code; the claim (and the source's
own comment) say dividers are always kept. -/
theorem c2_filter_drops_empty_divider :
    emptyDivider.content_type = "divider"
  ∧ emptyDivider.content = ""
  ∧ filter_empty_content [emptyDivider] = [] := by
  decide

/-- C4: the merge is the identity on sequences with no two adjacent table
chunks; its output never has two adjacent table chunks; hence it is
idempotent. -/
theorem c4_merge_idempotent :
    (∀ l : List Chunk, noAdjacentTables l = true →
      mergeConsecutiveTableChunks l = l)
  ∧ (∀ l : List Chunk, noAdjacentTables (mergeConsecutiveTableChunks l) = true)
  ∧ (∀ l : List Chunk,
      mergeConsecutiveTableChunks (mergeConsecutiveTableChunks l) =
        mergeConsecutiveTableChunks l) := by
  refine ⟨?_, ?_, ?_⟩
  · intro l h
    exact merge_fixed_aux l.length l (le_refl _) h
  · intro l
    exact merge_noAdj_aux l.length l (le_refl _)
  · intro l
    exact merge_fixed_aux (mergeConsecutiveTableChunks l).length _ (le_refl _)
      (merge_noAdj_aux l.length l (le_refl _))

/-- Witness for `c4_merge_idempotent`: a table chunk followed by a
paragraph chunk is already merged and stays unchanged. -/
theorem c4_merge_idempotent_witness :
    noAdjacentTables [exTableA, exPara] = true
  ∧ mergeConsecutiveTableChunks [exTableA, exPara] = [exTableA, exPara] :=
  ⟨by decide, c4_merge_idempotent.1 [exTableA, exPara] (by decide)⟩

/-- C7: within a merged run, chunks whose stripped content is empty
contribute nothing to the `' | '`-joined content (the join ranges over the
chunks with non-empty stripped content only), yet `merged_chunks` counts
the full run length and `original_positions` lists every chunk of the
run. -/
theorem c7_empty_content_counted_not_joined :
    ∀ (c : Chunk) (run rest : List Chunk),
    allTables (c :: run) = true → headNotTable rest = true → run ≠ [] →
    ∃ m, mergeConsecutiveTableChunks ((c :: run) ++ rest) =
        m :: mergeConsecutiveTableChunks rest
      ∧ m.content = joinSep " | "
          (((c :: run).filter (fun x => !(pyStrip x.content == ""))).map
            (fun x => pyStrip x.content))
      ∧ m.table_info = some
          [("merged_chunks", TIVal.nat (c :: run).length),
           ("original_positions", TIVal.natList ((c :: run).map Chunk.position))] := by
  intro c run rest hall hrest hrun
  refine ⟨mergeRun c run, merge_run_head c run rest hall hrest hrun, ?_, rfl⟩
  show joinSep " | " (((c :: run).map (fun x => pyStrip x.content)).filter
    (fun s => !(s == ""))) = _
  rw [strip_filter_map_comm]

/-- Table chunk with content `"a"` at position 0. -/
def exT1 : Chunk :=
  { content_type := "table", content := "a", tag_name := "tr",
    attributes := [], level := none, list_type := none, table_info := none,
    position := 0 }

/-- Table chunk with empty content at position 1. -/
def exT2 : Chunk :=
  { content_type := "table", content := "", tag_name := "tr",
    attributes := [], level := none, list_type := none, table_info := none,
    position := 1 }

/-- Table chunk with content `"b"` at position 2. -/
def exT3 : Chunk :=
  { content_type := "table", content := "b", tag_name := "tr",
    attributes := [], level := none, list_type := none, table_info := none,
    position := 2 }

/-- Witness for `c7_empty_content_counted_not_joined`: a run of three table
chunks whose middle content is empty. -/
theorem c7_empty_content_counted_not_joined_witness :
    ∃ m, mergeConsecutiveTableChunks ((exT1 :: [exT2, exT3]) ++ []) =
        m :: mergeConsecutiveTableChunks []
      ∧ m.content = joinSep " | "
          (((exT1 :: [exT2, exT3]).filter (fun x => !(pyStrip x.content == ""))).map
            (fun x => pyStrip x.content))
      ∧ m.table_info = some
          [("merged_chunks", TIVal.nat (exT1 :: [exT2, exT3]).length),
           ("original_positions",
             TIVal.natList ((exT1 :: [exT2, exT3]).map Chunk.position))] :=
  c7_empty_content_counted_not_joined exT1 [exT2, exT3] []
    (by decide) (by decide) (by decide)

/-- C9: the database records carry the ids `1, 2, ..., n` in output order,
both for the conversion of an arbitrary (already filtered and merged)
chunk sequence and for the full default pipeline; the ids are determined
by the output order alone, not by the chunks' `position` values. -/
theorem c9_ids_sequential :
    (∀ (chunks : List Chunk) (title : String),
      (convert_chunks chunks title).map DBRecord.id = List.range' 1 chunks.length)
  ∧ (∀ (chunks : List Chunk) (title : String),
      (convertPipeline chunks title).map DBRecord.id =
        List.range' 1 (convertPipeline chunks title).length) := by
  constructor
  · intro chunks title
    exact convertLoop_ids chunks title 1
  · intro chunks title
    show (convertChunksLoop _ title 1).map DBRecord.id =
      List.range' 1 (convertChunksLoop _ title 1).length
    rw [convertLoop_ids, convertLoop_length]

/-- C10: a merged chunk takes `tag_name`, `attributes` and `position` from
the first chunk of the run, keeps its `content_type`, and (for a first
chunk whose `level` and `list_type` keys are null — true of every table
chunk the classifier produces) agrees with the first chunk on every field
other than `content` and `table_info`; its `table_info` holds exactly the
keys `merged_chunks` and `original_positions`. -/
theorem c10_merged_chunk_frame :
    ∀ (c : Chunk) (run rest : List Chunk),
    allTables (c :: run) = true → headNotTable rest = true → run ≠ [] →
    c.level = none → c.list_type = none →
    ∃ m, mergeConsecutiveTableChunks ((c :: run) ++ rest) =
        m :: mergeConsecutiveTableChunks rest
      ∧ m.tag_name = c.tag_name
      ∧ m.attributes = c.attributes
      ∧ m.position = c.position
      ∧ m.content_type = c.content_type
      ∧ m.level = c.level
      ∧ m.list_type = c.list_type
      ∧ ∃ k ps, m.table_info = some
          [("merged_chunks", TIVal.nat k), ("original_positions", TIVal.natList ps)] := by
  intro c run rest hall hrest hrun hlev hlist
  have hc : isTable c = true := allTables_mem hall c (by simp)
  have hct : c.content_type = "table" := by
    simpa [isTable] using hc
  refine ⟨mergeRun c run, merge_run_head c run rest hall hrest hrun,
    rfl, rfl, rfl, ?_, ?_, ?_, ⟨(c :: run).length, (c :: run).map Chunk.position, rfl⟩⟩
  · show "table" = c.content_type
    exact hct.symm
  · show (none : Option Nat) = c.level
    exact hlev.symm
  · show (none : Option String) = c.list_type
    exact hlist.symm

/-- Witness for `c10_merged_chunk_frame`: the specification scenario's
table run. -/
theorem c10_merged_chunk_frame_witness :
    ∃ m, mergeConsecutiveTableChunks ((exTableA :: [exTableB]) ++ [exPara]) =
        m :: mergeConsecutiveTableChunks [exPara]
      ∧ m.tag_name = exTableA.tag_name
      ∧ m.attributes = exTableA.attributes
      ∧ m.position = exTableA.position
      ∧ m.content_type = exTableA.content_type
      ∧ m.level = exTableA.level
      ∧ m.list_type = exTableA.list_type
      ∧ ∃ k ps, m.table_info = some
          [("merged_chunks", TIVal.nat k), ("original_positions", TIVal.natList ps)] :=
  c10_merged_chunk_frame exTableA [exTableB] [exPara]
    (by decide) (by decide) (by decide) rfl rfl

/-- A whitespace character is not `'<'`. -/
theorem space_not_lt {c : Char} (h : isSpaceChar c = true) : (c == '<') = false := by
  cases hc : (c == '<') with
  | false => rfl
  | true =>
    have hceq : c = '<' := by simpa using hc
    subst hceq
    exact absurd h (by decide)

/-- Tag stripping leaves a list without `'<'` untouched, for any fuel. -/
theorem stripTagsGo_no_lt : ∀ (fuel : Nat) (l : List Char),
    (∀ c ∈ l, (c == '<') = false) → stripTagsGo fuel l = l := by
  intro fuel
  induction fuel with
  | zero =>
    intro l _
    cases l <;> rfl
  | succ fuel ih =>
    intro l h
    cases l with
    | nil => rfl
    | cons a rest =>
      have ha : (a == '<') = false := h a (by simp)
      have ha' : ¬((a == '<') = true) := by simp [ha]
      show (if a == '<' then _ else a :: stripTagsGo fuel rest) = a :: rest
      rw [if_neg ha', ih rest (fun c hc => h c (by simp [hc]))]

/-- Punctuation replacement leaves an all-whitespace list untouched. -/
theorem replacePunct_space : ∀ l : List Char,
    (∀ c ∈ l, isSpaceChar c = true) → replacePunct l = l := by
  intro l
  induction l with
  | nil => intro _; rfl
  | cons a l ih =>
    intro h
    have ha : isSpaceChar a = true := h a (by simp)
    show (if !(isWordChar a) && !(isSpaceChar a) then ' ' else a) :: replacePunct l
      = a :: l
    rw [ih (fun c hc => h c (by simp [hc]))]
    simp [ha]

/-- An all-whitespace list contains no token runs. -/
theorem countRuns_space : ∀ l : List Char,
    (∀ c ∈ l, isSpaceChar c = true) → ∀ b, countRuns b l = 0 := by
  intro l
  induction l with
  | nil => intro _ b; rfl
  | cons a l ih =>
    intro h b
    have ha : isSpaceChar a = true := h a (by simp)
    show (if isSpaceChar a then countRuns false l else _) = 0
    rw [if_pos ha]
    exact ih (fun c hc => h c (by simp [hc])) false

/-- C8: `count_tokens` equals the pipeline the specification describes —
strip HTML tags, replace punctuation by spaces, split on whitespace and
count the non-empty tokens — and it returns 0 on every empty or
whitespace-only input. -/
theorem c8_count_tokens_spec :
    (∀ s : String, count_tokens s = countTokensSpec s)
  ∧ (∀ s : String, s.data.all isSpaceChar = true → count_tokens s = 0) := by
  constructor
  · intro s
    unfold count_tokens countTokensSpec
    by_cases h : s.data.all isSpaceChar = true
    · rw [if_pos h]
      have hmem : ∀ c ∈ s.data, isSpaceChar c = true :=
        fun c hc => List.all_eq_true.mp h c hc
      unfold stripTags
      rw [stripTagsGo_no_lt s.data.length s.data
          (fun c hc => space_not_lt (hmem c hc)),
        replacePunct_space s.data hmem,
        countRuns_space s.data hmem false]
    · rw [if_neg h]
  · intro s h
    unfold count_tokens
    rw [if_pos h]

/-- Witness for `c8_count_tokens_spec`: a whitespace-only string counts
zero tokens. -/
theorem c8_count_tokens_spec_witness :
    ((" \t ").data.all isSpaceChar = true) ∧ count_tokens " \t " = 0 :=
  ⟨by decide, c8_count_tokens_spec.2 " \t " (by decide)⟩

/-- A node of the parsed HTML document: either a text node
(`NavigableString`) or an element (`Tag`) with a name, attributes and
children.  Tag names are stored lower-case, as `html.parser` reports them
and as `_process_element` normalizes them. -/
inductive HNode where
  | text (s : String)
  | elem (tag : String) (attrs : List (String × String)) (children : List HNode)
deriving Repr

/-- `self.heading_tags` of `HTMLContentParser.__init__`. -/
def headingTags : List String := ["h1", "h2", "h3", "h4", "h5", "h6"]

/-- `self.paragraph_tags`. -/
def paragraphTags : List String := ["p"]

/-- `self.list_tags`. -/
def listTags : List String := ["ul", "ol", "li"]

/-- `self.table_tags`. -/
def tableTags : List String := ["table", "thead", "tbody", "tr", "th", "td"]

/-- `self.divider_tags`. -/
def dividerTags : List String := ["hr"]

/-- `self.image_tags`. -/
def imageTags : List String := ["img"]

/-- `self.code_tags`. -/
def codeTags : List String := ["pre", "code"]

/-- `self.quote_tags`. -/
def quoteTags : List String := ["blockquote", "q"]

/-- `self.form_tags`. -/
def formTags : List String := ["form", "input", "textarea", "select", "button"]

/-- `self.nav_tags`. -/
def navTags : List String := ["nav"]

/-- `self.footer_tags`. -/
def footerTags : List String := ["footer"]

/-- `self.header_tags`. -/
def headerTags : List String := ["header"]

/-- `self.ignore_tags`. -/
def ignoreTags : List String :=
  ["script", "style", "meta", "link", "title", "head", "html", "body",
   "div", "span", "section", "article", "aside", "main"]

/-- `self.structural_tags` (every one of these is also in
`self.ignore_tags`). -/
def structuralTags : List String := ["div", "section", "article", "aside", "main"]

/-!
Text extraction (`HTMLContentParser._extract_text_content`): a text node is
stripped; for an element, the direct children are scanned — a text child
contributes its stripped text when non-empty, a child element whose tag is
an ignored tag contributes its own recursively extracted text when
non-empty, and any other child element contributes nothing — and the
collected parts are joined with single spaces.
-/

mutual

/-- Embedding of `_extract_text_content` (`src/src/html_parser.py`,
lines 346-364). -/
def extractText : HNode → String
  | .text s => pyStrip s
  | .elem _ _ children => joinSep " " (textParts children)

/-- The `text_parts` list accumulated by `_extract_text_content` while
scanning `element.contents`. -/
def textParts : List HNode → List String
  | [] => []
  | .text s :: rest =>
      if pyStrip s == "" then textParts rest else pyStrip s :: textParts rest
  | .elem t a ch :: rest =>
      if ignoreTags.contains t then
        (if extractText (.elem t a ch) == "" then textParts rest
         else extractText (.elem t a ch) :: textParts rest)
      else textParts rest

end

/-- Specification-side description of the extracted text pieces (§4.1 of
the specification, C5): the stripped, non-empty direct text of the element,
where an ignored container (script/style/meta/... ) is itself skipped but
its contents are still visited recursively by the same rule, and any other
child element is not entered. -/
def specTextPieces : List HNode → List String
  | [] => []
  | .text s :: rest =>
      if pyStrip s == "" then specTextPieces rest else pyStrip s :: specTextPieces rest
  | .elem t _ ch :: rest =>
      if ignoreTags.contains t then specTextPieces ch ++ specTextPieces rest
      else specTextPieces rest

/-- Pre-order list of all element nodes of a forest:
`BeautifulSoup.find_all(True)` in document order. -/
def findAllList : List HNode → List HNode
  | [] => []
  | .text _ :: rest => findAllList rest
  | .elem t a ch :: rest =>
      HNode.elem t a ch :: (findAllList ch ++ findAllList rest)

/-- Pre-order list of the descendant elements of a forest whose tag is in
`names`: `element.find_all([...])`. -/
def findTagged (names : List String) : List HNode → List HNode
  | [] => []
  | .text _ :: rest => findTagged names rest
  | .elem t a ch :: rest =>
      (if names.contains t then [HNode.elem t a ch] else [])
        ++ findTagged names ch ++ findTagged names rest

/-- Direct `li` children of a children list:
`element.find_all('li', recursive=False)`. -/
def directLis (children : List HNode) : List HNode :=
  children.filter fun n =>
    match n with
    | .elem t _ _ => t == "li"
    | .text _ => false

/-- Children of a node. -/
def nodeChildren : HNode → List HNode
  | .text _ => []
  | .elem _ _ ch => ch

/-- Attribute lookup with a default: `element.get(key, default)`. -/
def attrLookup (attrs : List (String × String)) (k d : String) : String :=
  (attrs.lookup k).getD d

/-- Embedding of `_extract_list_content`: an `li` extracts its text; a
`ul`/`ol` joins its direct non-empty `li` items, bullet-prefixed, with
newlines.  (The bullet string is the byte sequence literally present in
the source file.) -/
def extract_list_content : HNode → String
  | .text s => pyStrip s
  | .elem tag attrs children =>
    if tag == "li" then extractText (.elem tag attrs children)
    else
      joinSep "\n"
        ((((directLis children).map extractText).filter (fun s => !(s == ""))).map
          (fun s => "â€¢ " ++ s))

/-- Embedding of `_extract_table_content`: a `th`/`td` extracts its text;
any other table tag joins the texts of all its descendant cells with
`' | '`, skipping empty ones. -/
def extract_table_content : HNode → String
  | .text s => pyStrip s
  | .elem tag attrs children =>
    if tag == "th" || tag == "td" then extractText (.elem tag attrs children)
    else
      joinSep " | "
        (((findTagged ["th", "td"] children).map extractText).filter
          (fun s => !(s == "")))

/-- Embedding of `_extract_table_info`: row count, maximal cell count per
row and header presence for a `table` element, the empty dictionary for
every other tag. -/
def extract_table_info : HNode → TableInfoDict
  | .text _ => []
  | .elem tag _ children =>
    if tag == "table" then
      let rows := findTagged ["tr"] children
      let cols :=
        if rows.isEmpty then 0
        else ((rows.map (fun r => (findTagged ["th", "td"] (nodeChildren r)).length)).foldr
          max 0)
      [("rows", TIVal.nat rows.length),
       ("columns", TIVal.nat cols),
       ("has_header", TIVal.bool
         (!(findTagged ["thead"] children).isEmpty
           || !(findTagged ["th"] children).isEmpty))]
    else []

/-- Embedding of `_extract_form_content`: a `form` lists its descendant
input controls as `[type: name] placeholder` joined with `' | '`; any other
form tag extracts its text. -/
def extract_form_content : HNode → String
  | .text s => pyStrip s
  | .elem tag attrs children =>
    if tag == "form" then
      joinSep " | "
        ((findTagged ["input", "textarea", "select"] children).map fun inp =>
          match inp with
          | .elem _ iattrs _ =>
            "[" ++ attrLookup iattrs "type" "text" ++ ": "
              ++ attrLookup iattrs "name" "" ++ "] "
              ++ attrLookup iattrs "placeholder" ""
          | .text _ => "")
    else extractText (.elem tag attrs children)

/-- The image content string of `_process_image`:
`[Image: alt] (src)` when an `alt` attribute is present and non-empty,
`[Image] (src)` otherwise. -/
def imageContent (attrs : List (String × String)) : String :=
  let src := attrLookup attrs "src" ""
  let alt := attrLookup attrs "alt" ""
  if alt == "" then "[Image] (" ++ src ++ ")"
  else "[Image: " ++ alt ++ "] (" ++ src ++ ")"

/-- The heading level of `_process_heading`: `int(element.name[1])`, only
ever evaluated on `h1`-`h6`. -/
def headingLevel (tag : String) : Nat :=
  match tag.data with
  | _ :: c :: _ => c.toNat - ('0').toNat
  | _ => 0

/-- The content types of the `ContentType` enumeration. -/
inductive CType where
  | heading
  | paragraph
  | list
  | table
  | divider
  | image
  | code_block
  | quote
  | form
  | navigation
  | footer
  | header
  | sidebar
  | unknown
deriving DecidableEq, Repr

/-- A classified content chunk (the `ContentChunk` dataclass): the
dataclass defaults `level`, `list_type`, `table_info` and `position` to
`None`. -/
structure ContentChunk where
  content_type : CType
  content : String
  tag_name : String
  attributes : List (String × String)
  level : Option Nat
  list_type : Option String
  table_info : Option TableInfoDict
  position : Option Nat
deriving DecidableEq, Repr

/-- The disjunction of the twelve category tag sets of the dispatch chain
of `_process_element`. -/
def tagHasCategory (tag : String) : Bool :=
  headingTags.contains tag || paragraphTags.contains tag
    || listTags.contains tag || tableTags.contains tag
    || dividerTags.contains tag || imageTags.contains tag
    || codeTags.contains tag || quoteTags.contains tag
    || formTags.contains tag || navTags.contains tag
    || footerTags.contains tag || headerTags.contains tag

/-- Embedding of `_process_element` (`src/src/html_parser.py`,
lines 129-168) together with the per-category `_process_*` constructors it
dispatches to.  Ignored tags are rejected first; then the category sets are
tested in source order; `_process_structural` (reachable only if a
structural tag escaped the ignore set, which never happens since
`structural_tags ⊆ ignore_tags`) drops empty content; everything else
falls through to `_process_unknown`, which always produces a chunk. -/
def processTag (tag : String) (attrs : List (String × String))
    (children : List HNode) (position : Nat) : Option ContentChunk :=
  if ignoreTags.contains tag then none
    else if headingTags.contains tag then
      some { content_type := CType.heading,
             content := extractText (.elem tag attrs children),
             tag_name := tag, attributes := attrs,
             level := some (headingLevel tag), list_type := none,
             table_info := none, position := some position }
    else if paragraphTags.contains tag then
      some { content_type := CType.paragraph,
             content := extractText (.elem tag attrs children),
             tag_name := tag, attributes := attrs, level := none,
             list_type := none, table_info := none, position := some position }
    else if listTags.contains tag then
      some { content_type := CType.list,
             content := extract_list_content (.elem tag attrs children),
             tag_name := tag, attributes := attrs, level := none,
             list_type := if tag == "ul" || tag == "ol" then some tag else none,
             table_info := none, position := some position }
    else if tableTags.contains tag then
      some { content_type := CType.table,
             content := extract_table_content (.elem tag attrs children),
             tag_name := tag, attributes := attrs, level := none,
             list_type := none,
             table_info := some (extract_table_info (.elem tag attrs children)),
             position := some position }
    else if dividerTags.contains tag then
      some { content_type := CType.divider, content := "---",
             tag_name := tag, attributes := attrs, level := none,
             list_type := none, table_info := none, position := some position }
    else if imageTags.contains tag then
      some { content_type := CType.image, content := imageContent attrs,
             tag_name := tag, attributes := attrs, level := none,
             list_type := none, table_info := none, position := some position }
    else if codeTags.contains tag then
      some { content_type := CType.code_block,
             content := extractText (.elem tag attrs children),
             tag_name := tag, attributes := attrs, level := none,
             list_type := none, table_info := none, position := some position }
    else if quoteTags.contains tag then
      some { content_type := CType.quote,
             content := extractText (.elem tag attrs children),
             tag_name := tag, attributes := attrs, level := none,
             list_type := none, table_info := none, position := some position }
    else if formTags.contains tag then
      some { content_type := CType.form,
             content := extract_form_content (.elem tag attrs children),
             tag_name := tag, attributes := attrs, level := none,
             list_type := none, table_info := none, position := some position }
    else if navTags.contains tag then
      some { content_type := CType.navigation,
             content := extractText (.elem tag attrs children),
             tag_name := tag, attributes := attrs, level := none,
             list_type := none, table_info := none, position := some position }
    else if footerTags.contains tag then
      some { content_type := CType.footer,
             content := extractText (.elem tag attrs children),
             tag_name := tag, attributes := attrs, level := none,
             list_type := none, table_info := none, position := some position }
    else if headerTags.contains tag then
      some { content_type := CType.header,
             content := extractText (.elem tag attrs children),
             tag_name := tag, attributes := attrs, level := none,
             list_type := none, table_info := none, position := some position }
    else if structuralTags.contains tag then
      if !(pyStrip (extractText (.elem tag attrs children)) == "") then
        some { content_type := CType.unknown,
               content := extractText (.elem tag attrs children),
               tag_name := tag, attributes := attrs, level := none,
               list_type := none, table_info := none, position := some position }
      else none
    else
      some { content_type := CType.unknown,
             content := extractText (.elem tag attrs children),
             tag_name := tag, attributes := attrs, level := none,
             list_type := none, table_info := none, position := some position }

/-- Dispatch of `_process_element`: a text node yields nothing
(`find_all(True)` only ever passes elements); an element is classified by
its tag. -/
def processElement : HNode → Nat → Option ContentChunk
  | .text _, _ => none
  | .elem tag attrs children, position => processTag tag attrs children position

/-- The chunk-collecting loop of `parse_html` (`src/src/html_parser.py`,
lines 103-111): the position counter advances only when a chunk is
emitted. -/
def parseLoop : List HNode → Nat → List ContentChunk
  | [], _ => []
  | e :: rest, pos =>
    match processElement e pos with
    | some c => c :: parseLoop rest (pos + 1)
    | none => parseLoop rest pos

/-- Embedding of `HTMLContentParser.parse_html` (`src/src/html_parser.py`,
lines 86-112), starting from the parsed node forest (the argument of
`soup.find_all(True)`); the string-level fence cleanup of
`_clean_html_string` and the vendor HTML parse are what produce the
forest. -/
def parse_html (doc : List HNode) : List ContentChunk :=
  parseLoop (findAllList doc) 0

/-- A boolean known to be false is not true. -/
theorem bool_false_not_true {b : Bool} (h : b = false) : ¬(b = true) :=
  fun hc => Bool.noConfusion (h ▸ hc)

/-- Every emitted chunk records the position it was offered:
`processTag` writes `position := some position` in every `some` branch. -/
theorem processTag_position : ∀ (tag : String) (attrs : List (String × String))
    (children : List HNode) (p : Nat) (c : ContentChunk),
    processTag tag attrs children p = some c → c.position = some p := by
  intro tag attrs children p c h
  unfold processTag at h
  by_cases h0 : ignoreTags.contains tag = true
  · rw [if_pos h0] at h
    exact Option.noConfusion h
  rw [if_neg h0] at h
  by_cases h1 : headingTags.contains tag = true
  · rw [if_pos h1] at h
    injection h with hc
    subst hc
    rfl
  rw [if_neg h1] at h
  by_cases h2 : paragraphTags.contains tag = true
  · rw [if_pos h2] at h
    injection h with hc
    subst hc
    rfl
  rw [if_neg h2] at h
  by_cases h3 : listTags.contains tag = true
  · rw [if_pos h3] at h
    injection h with hc
    subst hc
    rfl
  rw [if_neg h3] at h
  by_cases h4 : tableTags.contains tag = true
  · rw [if_pos h4] at h
    injection h with hc
    subst hc
    rfl
  rw [if_neg h4] at h
  by_cases h5 : dividerTags.contains tag = true
  · rw [if_pos h5] at h
    injection h with hc
    subst hc
    rfl
  rw [if_neg h5] at h
  by_cases h6 : imageTags.contains tag = true
  · rw [if_pos h6] at h
    injection h with hc
    subst hc
    rfl
  rw [if_neg h6] at h
  by_cases h7 : codeTags.contains tag = true
  · rw [if_pos h7] at h
    injection h with hc
    subst hc
    rfl
  rw [if_neg h7] at h
  by_cases h8 : quoteTags.contains tag = true
  · rw [if_pos h8] at h
    injection h with hc
    subst hc
    rfl
  rw [if_neg h8] at h
  by_cases h9 : formTags.contains tag = true
  · rw [if_pos h9] at h
    injection h with hc
    subst hc
    rfl
  rw [if_neg h9] at h
  by_cases h10 : navTags.contains tag = true
  · rw [if_pos h10] at h
    injection h with hc
    subst hc
    rfl
  rw [if_neg h10] at h
  by_cases h11 : footerTags.contains tag = true
  · rw [if_pos h11] at h
    injection h with hc
    subst hc
    rfl
  rw [if_neg h11] at h
  by_cases h12 : headerTags.contains tag = true
  · rw [if_pos h12] at h
    injection h with hc
    subst hc
    rfl
  rw [if_neg h12] at h
  by_cases h13 : structuralTags.contains tag = true
  · rw [if_pos h13] at h
    by_cases h14 : (!(pyStrip (extractText (HNode.elem tag attrs children)) == "")) = true
    · rw [if_pos h14] at h
      injection h with hc
      subst hc
      rfl
    rw [if_neg h14] at h
    exact Option.noConfusion h
  rw [if_neg h13] at h
  injection h with hc
  subst hc
  rfl

/-- Every chunk emitted by `_process_element` records the position it was
offered. -/
theorem processElement_position : ∀ (e : HNode) (p : Nat) (c : ContentChunk),
    processElement e p = some c → c.position = some p := by
  intro e p c h
  cases e with
  | text s => exact Option.noConfusion h
  | elem tag attrs children => exact processTag_position tag attrs children p c h

/-- The loop of `parse_html` emits chunks whose positions are the
consecutive integers starting at the counter's initial value. -/
theorem parseLoop_positions : ∀ (es : List HNode) (p : Nat),
    (parseLoop es p).map ContentChunk.position =
      (List.range' p (parseLoop es p).length).map some := by
  intro es
  induction es with
  | nil => intro p; rfl
  | cons e rest ih =>
    intro p
    cases hpe : processElement e p with
    | none => simp only [parseLoop, hpe]; exact ih p
    | some c =>
      simp only [parseLoop, hpe, List.map_cons, List.length_cons, List.range'_succ]
      rw [processElement_position e p c hpe, ih (p + 1)]

/-- C3: for every document forest, the chunk sequence produced by the
classifier carries the positions `0, 1, ..., n-1` in output order — a
strict, zero-based, gap-free sequence — because the counter advances only
on emitted chunks. -/
theorem c3_positions_sequential :
    ∀ doc : List HNode,
    (parse_html doc).map ContentChunk.position =
      (List.range (parse_html doc).length).map some := by
  intro doc
  unfold parse_html
  rw [List.range_eq_range']
  exact parseLoop_positions (findAllList doc) 0

/-- Every structural tag is also an ignored tag, so the structural branch
of the dispatch is dead code. -/
theorem structural_subset_ignore {tag : String}
    (h : structuralTags.contains tag = true) : ignoreTags.contains tag = true := by
  have hmem : tag ∈ structuralTags := by simpa using h
  fin_cases hmem <;> decide

/-- An ignored tag yields no chunk, whatever its content. -/
theorem processTag_ignored (tag : String) (attrs : List (String × String))
    (children : List HNode) (p : Nat) (h : ignoreTags.contains tag = true) :
    processTag tag attrs children p = none := by
  unfold processTag
  rw [if_pos h]

/-- A tag in none of the category sets and not ignored always yields an
`unknown` chunk, whatever its text content. -/
theorem processTag_unknown (tag : String) (attrs : List (String × String))
    (children : List HNode) (p : Nat)
    (hcat : tagHasCategory tag = false) (hig : ignoreTags.contains tag = false) :
    processTag tag attrs children p =
      some { content_type := CType.unknown,
             content := extractText (.elem tag attrs children),
             tag_name := tag, attributes := attrs, level := none,
             list_type := none, table_info := none, position := some p } := by
  simp only [tagHasCategory, Bool.or_eq_false_iff] at hcat
  obtain ⟨⟨⟨⟨⟨⟨⟨⟨⟨⟨⟨hh, hp⟩, hl⟩, ht⟩, hd⟩, him⟩, hcd⟩, hq⟩, hf⟩, hn⟩, hft⟩, hhd⟩ := hcat
  have hs : structuralTags.contains tag = false := by
    cases hst : structuralTags.contains tag with
    | false => rfl
    | true => rw [structural_subset_ignore hst] at hig; exact Bool.noConfusion hig
  unfold processTag
  rw [if_neg (bool_false_not_true hig), if_neg (bool_false_not_true hh),
    if_neg (bool_false_not_true hp), if_neg (bool_false_not_true hl),
    if_neg (bool_false_not_true ht), if_neg (bool_false_not_true hd),
    if_neg (bool_false_not_true him), if_neg (bool_false_not_true hcd),
    if_neg (bool_false_not_true hq), if_neg (bool_false_not_true hf),
    if_neg (bool_false_not_true hn), if_neg (bool_false_not_true hft),
    if_neg (bool_false_not_true hhd), if_neg (bool_false_not_true hs)]

/-- C6 counterexample: the element `<foo></foo>` has a tag with no assigned
category and empty text content, yet the classifier does not drop it: it
yields an `unknown` chunk with empty content.  (Empty-content chunks are
removed later, by `filter_empty_content`, not by the classifier.) -/
theorem c6_empty_unknown_counterexample :
    tagHasCategory "foo" = false
  ∧ extractText (HNode.elem "foo" [] []) = ""
  ∧ processElement (HNode.elem "foo" [] []) 0 =
      some { content_type := CType.unknown, content := "", tag_name := "foo",
             attributes := [], level := none, list_type := none,
             table_info := none, position := some 0 } := by
  have hext : extractText (HNode.elem "foo" [] []) = "" := by
    simp [extractText, textParts, joinSep]
  refine ⟨by decide, hext, ?_⟩
  have h := processTag_unknown "foo" [] [] 0 (by decide) (by decide)
  rw [hext] at h
  exact h

/-- C6 (amended): an element whose tag is in the ignore set yields no chunk
regardless of content; an element whose tag has no assigned category and is
not ignored yields exactly one chunk with content_type `unknown`, whether
or not its text content is empty.  (The empty-content case is not dropped
by the classifier, contrary to the claim; such chunks are removed later by
the filtering step.) -/
theorem c6_unknown_tag_always_chunk :
    (∀ (tag : String) (attrs : List (String × String)) (children : List HNode)
      (p : Nat), ignoreTags.contains tag = true →
      processElement (HNode.elem tag attrs children) p = none)
  ∧ (∀ (tag : String) (attrs : List (String × String)) (children : List HNode)
      (p : Nat), tagHasCategory tag = false → ignoreTags.contains tag = false →
      processElement (HNode.elem tag attrs children) p =
        some { content_type := CType.unknown,
               content := extractText (HNode.elem tag attrs children),
               tag_name := tag, attributes := attrs, level := none,
               list_type := none, table_info := none, position := some p }) := by
  constructor
  · intro tag attrs children p h
    exact processTag_ignored tag attrs children p h
  · intro tag attrs children p hcat hig
    exact processTag_unknown tag attrs children p hcat hig

/-- Witness for `c6_unknown_tag_always_chunk`: the tag `script` is ignored
and the tag `custom` yields an `unknown` chunk. -/
theorem c6_unknown_tag_always_chunk_witness :
    processElement (HNode.elem "script" [] [HNode.text "x"]) 0 = none
  ∧ processElement (HNode.elem "custom" [] [HNode.text "x"]) 0 =
      some { content_type := CType.unknown,
             content := extractText (HNode.elem "custom" [] [HNode.text "x"]),
             tag_name := "custom", attributes := [], level := none,
             list_type := none, table_info := none, position := some 0 } :=
  ⟨c6_unknown_tag_always_chunk.1 "script" [] [HNode.text "x"] 0 (by decide),
   c6_unknown_tag_always_chunk.2 "custom" [] [HNode.text "x"] 0 (by decide) (by decide)⟩

/-- Unfolding equation: `textParts` on the empty children list. -/
theorem textParts_nil : textParts [] = [] := by
  simp [textParts]

/-- Unfolding equation: `textParts` on a leading text node. -/
theorem textParts_cons_text (s : String) (rest : List HNode) :
    textParts (HNode.text s :: rest) =
      if pyStrip s == "" then textParts rest
      else pyStrip s :: textParts rest := by
  simp only [textParts]

/-- Unfolding equation: `textParts` on a leading element node. -/
theorem textParts_cons_elem (t : String) (a : List (String × String))
    (ch rest : List HNode) :
    textParts (HNode.elem t a ch :: rest) =
      if ignoreTags.contains t then
        (if extractText (HNode.elem t a ch) == "" then textParts rest
         else extractText (HNode.elem t a ch) :: textParts rest)
      else textParts rest := by
  simp only [textParts]

/-- Unfolding equation: `extractText` on an element node. -/
theorem extractText_elem (t : String) (a : List (String × String))
    (ch : List HNode) :
    extractText (HNode.elem t a ch) = joinSep " " (textParts ch) := by
  simp only [extractText]

/-- Unfolding equation: `specTextPieces` on the empty children list. -/
theorem specTextPieces_nil : specTextPieces [] = [] := by
  simp [specTextPieces]

/-- Unfolding equation: `specTextPieces` on a leading text node. -/
theorem specTextPieces_cons_text (s : String) (rest : List HNode) :
    specTextPieces (HNode.text s :: rest) =
      if pyStrip s == "" then specTextPieces rest
      else pyStrip s :: specTextPieces rest := by
  simp only [specTextPieces]

/-- Unfolding equation: `specTextPieces` on a leading element node. -/
theorem specTextPieces_cons_elem (t : String) (a : List (String × String))
    (ch rest : List HNode) :
    specTextPieces (HNode.elem t a ch :: rest) =
      if ignoreTags.contains t then specTextPieces ch ++ specTextPieces rest
      else specTextPieces rest := by
  simp only [specTextPieces]

/-- The characters of an appended string. -/
theorem str_data_append (a b : String) : (a ++ b).data = a.data ++ b.data := rfl

/-- String append is associative. -/
theorem str_append_assoc (a b c : String) : (a ++ b) ++ c = a ++ (b ++ c) := by
  cases a with
  | mk as =>
    cases b with
    | mk bs =>
      cases c with
      | mk cs =>
        show String.mk ((as ++ bs) ++ cs) = String.mk (as ++ (bs ++ cs))
        rw [List.append_assoc]

/-- Joining onto a non-empty tail inserts the separator. -/
theorem joinSep_cons_of_ne (sep x : String) (A : List String) (hA : A ≠ []) :
    joinSep sep (x :: A) = x ++ sep ++ joinSep sep A := by
  cases A with
  | nil => exact absurd rfl hA
  | cons y rest => rfl

/-- The single-space join of a non-empty list of non-empty strings is
non-empty. -/
theorem joinSep_ne_empty (A : List String) (hA : A ≠ [])
    (hne : ∀ s ∈ A, ¬(s = "")) : ¬(joinSep " " A = "") := by
  cases A with
  | nil => exact absurd rfl hA
  | cons x rest =>
    cases rest with
    | nil =>
      intro h
      exact hne x (by simp) h
    | cons y rest2 =>
      intro h
      have h' : (x ++ " " ++ joinSep " " (y :: rest2)) = "" := h
      have hd := congrArg String.data h'
      rw [str_data_append, str_data_append] at hd
      simp at hd

/-- Joining a concatenation of two non-empty lists splits over the
separator. -/
theorem joinSep_append (sep : String) : ∀ (A B : List String), A ≠ [] → B ≠ [] →
    joinSep sep (A ++ B) = joinSep sep A ++ sep ++ joinSep sep B := by
  intro A
  induction A with
  | nil =>
    intro B h _
    exact absurd rfl h
  | cons x A2 ih =>
    intro B _ hB
    cases hA2 : A2 with
    | nil =>
      show joinSep sep (x :: B) = joinSep sep [x] ++ sep ++ joinSep sep B
      rw [joinSep_cons_of_ne sep x B hB]
      rfl
    | cons y A3 =>
      subst hA2
      have hne : (y :: A3) ++ B ≠ [] := by simp
      rw [List.cons_append, joinSep_cons_of_ne sep x ((y :: A3) ++ B) hne,
        joinSep_cons_of_ne sep x (y :: A3) (by simp),
        ih B (by simp) hB]
      simp only [str_append_assoc]

/-- Every string collected by `textParts` is non-empty: each cons in the
definition is guarded by a non-emptiness test. -/
theorem textParts_ne_empty : ∀ (l : List HNode), ∀ s ∈ textParts l, ¬(s = "") := by
  intro l
  induction l with
  | nil =>
    intro s hs
    rw [textParts_nil] at hs
    exact absurd hs (List.not_mem_nil s)
  | cons a rest ih =>
    intro s hs
    cases a with
    | text str =>
      rw [textParts_cons_text] at hs
      by_cases hc : (pyStrip str == "") = true
      · rw [if_pos hc] at hs
        exact ih s hs
      · rw [if_neg hc] at hs
        rcases List.mem_cons.mp hs with rfl | hs2
        · intro he
          exact hc (by simpa using he)
        · exact ih s hs2
    | elem t a ch =>
      rw [textParts_cons_elem] at hs
      by_cases hig : (ignoreTags.contains t) = true
      · rw [if_pos hig] at hs
        by_cases hx : (extractText (HNode.elem t a ch) == "") = true
        · rw [if_pos hx] at hs
          exact ih s hs
        · rw [if_neg hx] at hs
          rcases List.mem_cons.mp hs with rfl | hs2
          · intro he
            exact hx (by simpa using he)
          · exact ih s hs2
      · rw [if_neg hig] at hs
        exact ih s hs

/-- Main equivalence, by induction on the size of the forest: the joined
parts computed by `_extract_text_content` coincide with the joined
specification-side pieces, and the two part lists are empty together. -/
theorem textParts_spec_aux : ∀ (n : Nat) (l : List HNode), sizeOf l ≤ n →
    joinSep " " (textParts l) = joinSep " " (specTextPieces l)
      ∧ (textParts l = [] ↔ specTextPieces l = []) := by
  intro n
  induction n with
  | zero =>
    intro l hl
    exfalso
    cases l with
    | nil => simp at hl
    | cons a rest => simp at hl
  | succ n ih =>
    intro l hl
    cases l with
    | nil =>
      rw [textParts_nil, specTextPieces_nil]
      exact ⟨rfl, Iff.rfl⟩
    | cons a rest =>
      cases a with
      | text s =>
        have hrest : sizeOf rest ≤ n := by
          simp at hl
          omega
        obtain ⟨ih1, ih2⟩ := ih rest hrest
        rw [textParts_cons_text, specTextPieces_cons_text]
        by_cases hc : (pyStrip s == "") = true
        · rw [if_pos hc, if_pos hc]
          exact ⟨ih1, ih2⟩
        · rw [if_neg hc, if_neg hc]
          constructor
          · by_cases hr0 : textParts rest = []
            · rw [hr0, ih2.mp hr0]
            · have hs0 : specTextPieces rest ≠ [] := fun h => hr0 (ih2.mpr h)
              rw [joinSep_cons_of_ne _ _ _ hr0, joinSep_cons_of_ne _ _ _ hs0, ih1]
          · simp
      | elem t a ch =>
        have hch : sizeOf ch ≤ n := by
          simp at hl
          omega
        have hrest : sizeOf rest ≤ n := by
          simp at hl
          omega
        obtain ⟨ihc1, ihc2⟩ := ih ch hch
        obtain ⟨ihr1, ihr2⟩ := ih rest hrest
        rw [textParts_cons_elem, specTextPieces_cons_elem]
        by_cases hig : (ignoreTags.contains t) = true
        · rw [if_pos hig, if_pos hig, extractText_elem]
          by_cases hx : (joinSep " " (textParts ch) == "") = true
          · rw [if_pos hx]
            have hxe : joinSep " " (textParts ch) = "" := by simpa using hx
            have hchnil : textParts ch = [] := by
              by_contra hne
              exact joinSep_ne_empty (textParts ch) hne (textParts_ne_empty ch) hxe
            have hsnil : specTextPieces ch = [] := ihc2.mp hchnil
            rw [hsnil, List.nil_append]
            exact ⟨ihr1, ihr2⟩
          · rw [if_neg hx]
            have hxne : ¬(joinSep " " (textParts ch) = "") := by
              intro he
              exact hx (by simpa using he)
            have hchne : textParts ch ≠ [] := by
              intro he
              rw [he] at hxne
              exact hxne rfl
            have hsne : specTextPieces ch ≠ [] := fun h => hchne (ihc2.mpr h)
            constructor
            · by_cases hr0 : textParts rest = []
              · have hs0 : specTextPieces rest = [] := ihr2.mp hr0
                rw [hr0, hs0, List.append_nil]
                show joinSep " " (textParts ch) = _
                exact ihc1
              · have hs0 : specTextPieces rest ≠ [] := fun h => hr0 (ihr2.mpr h)
                rw [joinSep_cons_of_ne _ _ _ hr0,
                  joinSep_append " " (specTextPieces ch) (specTextPieces rest) hsne hs0,
                  ihc1, ihr1]
            · simp [hsne]
        · rw [if_neg hig, if_neg hig]
          exact ⟨ihr1, ihr2⟩

/-- C5: the text extracted from any element is the single-space join of
the specification-side text pieces: the element's direct stripped non-empty
text, where a nested ignored container (script/style/meta/...) is itself
skipped but its contents are still visited recursively by the same rule,
and a non-ignored child element is not entered. -/
theorem c5_extract_text_spec :
    ∀ (tag : String) (attrs : List (String × String)) (children : List HNode),
    extractText (HNode.elem tag attrs children) =
      joinSep " " (specTextPieces children) := by
  intro tag attrs children
  rw [extractText_elem]
  exact (textParts_spec_aux (sizeOf children) children (le_refl _)).1

end DocParser
